import Mathlib

/- A verification development for the chat API route of the App_Llama_Vercel
repository.  The repository holds three variants of the same Next.js route
handler (route.ts and two unnamed variants); each is embedded below as a pure
function over an explicit model of JavaScript values, and the behavioural
claims about validation, normalization, history splitting, the calling
convention fallback and error mapping are proved or refuted against these
embeddings. -/

/-- A shallow model of the JavaScript values that can appear as message
content in the request body: strings, numbers (carried with their decimal
string rendering), booleans, null, undefined, arrays and plain objects
(association lists of fields). -/
inductive JsVal where
  | jstr (s : String)
  | jnum (n : String)
  | jbool (b : Bool)
  | jnull
  | jundef
  | jarr (xs : List JsVal)
  | jobj (fields : List (String × JsVal))

mutual

/-- ECMAScript String() coercion on the modelled values: strings are
themselves, numbers and booleans render canonically, null and undefined
render as their names, arrays join their elements with commas (null and
undefined elements rendering empty) and plain objects render as the fixed
object marker. -/
def jsToString : JsVal → String
  | .jstr s => s
  | .jnum n => n
  | .jbool b => if b then "true" else "false"
  | .jnull => "null"
  | .jundef => "undefined"
  | .jarr xs => jsArrToString xs
  | .jobj _ => "[object Object]"

/-- Array.prototype.toString on the modelled values: elements joined by
commas, with null and undefined elements rendering empty. -/
def jsArrToString : List JsVal → String
  | [] => ""
  | x :: xs =>
    (match x with
      | .jnull => ""
      | .jundef => ""
      | v => jsToString v) ++
    (match xs with
      | [] => ""
      | _ :: _ => "," ++ jsArrToString xs)

end

/-- True exactly for the model values whose JavaScript typeof is string. -/
def JsVal.isString : JsVal → Bool
  | .jstr _ => true
  | _ => false

/-- JavaScript primitives other than strings (numbers and booleans here):
applying the in operator to them raises a TypeError. -/
def JsVal.isNonStringPrimitive : JsVal → Bool
  | .jnum _ => true
  | .jbool _ => true
  | _ => false

/-- A raised JavaScript failure, carrying the optional message property that
the handlers read back at their catch boundary (none models a thrown value
without a usable message property). -/
structure JsError where
  message : Option String
  deriving DecidableEq

/-- The catch expression of route.ts: the message property of the failure
when present, otherwise the given fallback string. -/
def errMessageOr (e : JsError) (fallback : String) : String :=
  e.message.getD fallback

/-- An incoming message as found in the request body: an arbitrary role
string and an arbitrary content value. -/
structure IncomingMessage where
  role : String
  content : JsVal

/-- The ChatMessage type of route.ts: a role string (cast to the supported
role union in the source) and flattened string content. -/
structure ChatMessage where
  role : String
  content : String
  deriving DecidableEq

/-- The allowed role set of route.ts line 36 and of the variants. -/
def allowedRoles : List String := ["system", "user", "assistant", "tool"]

/-- Sequential fail-fast mapping, the behaviour of Array.prototype.map with a
callback that can throw: elements are processed left to right and the first
raised failure aborts the whole map. -/
def mapExcept {α β ε : Type} (f : α → Except ε β) : List α → Except ε (List β)
  | [] => .ok []
  | x :: xs => do
    let y ← f x
    let ys ← mapExcept f xs
    return y :: ys

/-- The per-part callback of route.ts lines 48 to 54: a string part is kept
as is; otherwise the source tests membership of the text key in the part
coalesced to an empty object, yielding the String() coercion of the text
field when present and the empty string when absent, and raising a TypeError
when the coalesced part is a non-string primitive, because the in operator
requires an object operand. -/
def partContribution : JsVal → Except JsError String
  | .jstr s => .ok s
  | p =>
    let q := match p with
      | .jnull => JsVal.jobj []
      | .jundef => JsVal.jobj []
      | v => v
    match q with
    | .jobj fields =>
      match fields.lookup "text" with
      | some t => .ok (jsToString t)
      | none => .ok ""
    | .jarr _ => .ok ""
    | _ => .error ⟨some "Cannot use in operator to search for text in primitive"⟩

/-- Content normalization of route.ts lines 43 to 56 (and identically lines
63 to 77): string content is returned unchanged; array content maps each
part through partContribution and joins the results with a single space;
null and undefined become the empty string; anything else is coerced with
String(). -/
def normContent : JsVal → Except JsError String
  | .jstr s => .ok s
  | .jarr parts => do
    let contributions ← mapExcept partContribution parts
    return String.intercalate " " contributions
  | .jnull => .ok ""
  | .jundef => .ok ""
  | v => .ok (jsToString v)

/-- One element of the chatHistory construction of route.ts: the role is
kept and the content is normalized. -/
def normMessage (m : IncomingMessage) : Except JsError ChatMessage := do
  let c ← normContent m.content
  return ⟨m.role, c⟩

/-- The chatHistory construction of route.ts lines 39 to 57: filter the
prior messages down to the supported roles, then normalize each survivor. -/
def chatHistoryOf (prior : List IncomingMessage) : Except JsError (List ChatMessage) :=
  mapExcept normMessage (prior.filter fun m => allowedRoles.contains m.role)

/-- The shapes with which the handlers invoke the external chat engine:
the options object of route.ts line 92, the three argument positional call
of the variants, and the two argument fallback of route.ts line 99. -/
inductive CallArgs where
  | options (message : String) (chatHistory : List ChatMessage) (stream : Bool)
  | positional3 (message : String) (chatHistory : List ChatMessage) (stream : Bool)
  | positional2 (message : String) (stream : Bool)
  deriving DecidableEq

/-- The engine invocation of route.ts lines 89 to 100: try the options
object shape; on any raised failure, call the two argument positional shape
once and let its outcome stand.  The list records the calls made, in
order. -/
def chatWithFallback {ρ : Type} (chat : CallArgs → Except JsError ρ)
    (userContent : String) (chatHistory : List ChatMessage) :
    Except JsError ρ × List CallArgs :=
  let c1 := CallArgs.options userContent chatHistory true
  match chat c1 with
  | .ok r => (.ok r, [c1])
  | .error _ =>
    let c2 := CallArgs.positional2 userContent true
    (chat c2, [c1, c2])

/-- The fixed validation failure message of all handler variants. -/
def validationError : String :=
  "messages are required in the request body and the last message must be from the user"

/-- The outcome of request.json() followed by destructuring of the messages
field: either the parse raised, or it yielded an optional message list
(none models a missing, null or undefined messages field). -/
inductive Body where
  | malformed (e : JsError)
  | parsed (messages : Option (List IncomingMessage))

/-- An HTTP response produced by a handler: either a streaming 200 carrying
the adapted engine response, or a JSON error envelope with a status code and
an optional error string (none models a JSON body whose error field is
undefined and therefore absent). -/
inductive HttpResponse (ρ : Type) where
  | streaming (response : ρ)
  | jsonError (status : Nat) (error : Option String)

/-- The HTTP status code of a handler response. -/
def HttpResponse.status {ρ : Type} : HttpResponse ρ → Nat
  | .streaming _ => 200
  | .jsonError s _ => s

/-- The 500 envelope of route.ts lines 108 to 111: the failure message when
present, otherwise the generic fallback string. -/
def err500 {ρ : Type} (e : JsError) : HttpResponse ρ :=
  .jsonError 500 (some (errMessageOr e "Internal Server Error"))

/-- Modelled from the spec: the Response Stream Adapter (the
llamaindex-stream module, which is not under src) is a pass-through with
framing and encoding only, so it is modelled as the identity on the engine
response. -/
def LlamaIndexStream {ρ : Type} (response : ρ) : ρ := response

/-- Steps 3 to 8 of route.ts, run once validation has passed: build the
normalized history from all but the last message, normalize the last user
content, construct the engine, invoke it with the fallback policy and wrap
the outcome; any raised failure lands in the catch of lines 105 to 112. -/
def postValidated {ρ : Type} (mkEngine : Except JsError (CallArgs → Except JsError ρ))
    (ms : List IncomingMessage) (lastMessage : IncomingMessage) :
    HttpResponse ρ × List CallArgs :=
  match chatHistoryOf ms.dropLast with
  | .error e => (err500 e, [])
  | .ok chatHistory =>
    match normContent lastMessage.content with
    | .error e => (err500 e, [])
    | .ok userContent =>
      match mkEngine with
      | .error e => (err500 e, [])
      | .ok chatEngine =>
        let rc := chatWithFallback chatEngine userContent chatHistory
        match rc.1 with
        | .ok response => (.streaming (LlamaIndexStream response), rc.2)
        | .error e => (err500 e, rc.2)

/-- The POST handler of route.ts: parse outcome, validation of lines 27 to
33, then the validated pipeline.  The second component records the engine
invocations made. -/
def POST {ρ : Type} (mkEngine : Except JsError (CallArgs → Except JsError ρ))
    (body : Body) : HttpResponse ρ × List CallArgs :=
  match body with
  | .malformed e => (err500 e, [])
  | .parsed messages =>
    match messages with
    | none => (.jsonError 400 (some validationError), [])
    | some ms =>
      match ms.getLast? with
      | none => (.jsonError 400 (some validationError), [])
      | some lastMessage =>
        if lastMessage.role = "user" then postValidated mkEngine ms lastMessage
        else (.jsonError 400 (some validationError), [])

/-- The fixed refusal sentence the system prompt demands verbatim. -/
def refusalText : String := "No encontré esa información en el documento."

/-- The system prompt content of the first unnamed variant, lines 94 to 101:
three concatenated literals instructing the model to answer only from the
supplied documents and to reply with the fixed refusal sentence when the
answer is not found. -/
def systemPromptContent : String :=
  "Eres un asistente que responde únicamente con información contenida en los documentos proporcionados. " ++
  "Si no encuentras la respuesta en ellos, responde exactamente: \x27No encontré esa información en el documento.\x27 " ++
  "No inventes datos ni uses conocimiento externo."

/-- The system message unshifted onto the history by the first unnamed
variant. -/
def systemMessage : ChatMessage := ⟨"system", systemPromptContent⟩

/-- Everything of systemPromptContent before the refusal sentence. -/
def systemPromptPre : String :=
  "Eres un asistente que responde únicamente con información contenida en los documentos proporcionados. Si no encuentras la respuesta en ellos, responde exactamente: \x27"

/-- Everything of systemPromptContent after the refusal sentence. -/
def systemPromptPost : String := "\x27 No inventes datos ni uses conocimiento externo."

/-- Steps 3 to 10 of the first unnamed variant (part_000): as in route.ts,
except that the system message is unshifted to the front of the history and
the engine is invoked once with the three argument positional shape. -/
def postValidated000 {ρ : Type} (mkEngine : Except JsError (CallArgs → Except JsError ρ))
    (ms : List IncomingMessage) (lastMessage : IncomingMessage) :
    HttpResponse ρ × List CallArgs :=
  match chatHistoryOf ms.dropLast with
  | .error e => (err500 e, [])
  | .ok chatHistory =>
    match normContent lastMessage.content with
    | .error e => (err500 e, [])
    | .ok userContent =>
      match mkEngine with
      | .error e => (err500 e, [])
      | .ok chatEngine =>
        let augmented := systemMessage :: chatHistory
        let c := CallArgs.positional3 userContent augmented true
        match chatEngine c with
        | .ok response => (.streaming (LlamaIndexStream response), [c])
        | .error e => (err500 e, [c])

/-- The POST handler of the first unnamed variant (part_000). -/
def POST_part000 {ρ : Type} (mkEngine : Except JsError (CallArgs → Except JsError ρ))
    (body : Body) : HttpResponse ρ × List CallArgs :=
  match body with
  | .malformed e => (err500 e, [])
  | .parsed messages =>
    match messages with
    | none => (.jsonError 400 (some validationError), [])
    | some ms =>
      match ms.getLast? with
      | none => (.jsonError 400 (some validationError), [])
      | some lastMessage =>
        if lastMessage.role = "user" then postValidated000 mkEngine ms lastMessage
        else (.jsonError 400 (some validationError), [])

/-- The single call shape of the second unnamed variant (part_001): a raw
positional call whose message is the unnormalized last content and whose
history elements keep their raw content values. -/
inductive RawCallArgs where
  | positional3 (message : JsVal) (chatHistory : List IncomingMessage) (stream : Bool)

/-- The chatHistory construction of the second unnamed variant, lines 41 to
46: role filtering only, the content is kept exactly as received. -/
def chatHistoryRaw (remaining : List IncomingMessage) : List IncomingMessage :=
  remaining.filter fun m => allowedRoles.contains m.role

/-- Steps 3 to 8 of the second unnamed variant (part_001): no content
normalization, a single three argument positional call, and a catch that
returns the raw optional message property with no generic fallback. -/
def postValidated001 {ρ : Type} (mkEngine : Except JsError (RawCallArgs → Except JsError ρ))
    (ms : List IncomingMessage) (lastMessage : IncomingMessage) :
    HttpResponse ρ × List RawCallArgs :=
  match mkEngine with
  | .error e => (.jsonError 500 e.message, [])
  | .ok chatEngine =>
    let c := RawCallArgs.positional3 lastMessage.content (chatHistoryRaw ms.dropLast) true
    match chatEngine c with
    | .ok response => (.streaming (LlamaIndexStream response), [c])
    | .error e => (.jsonError 500 e.message, [c])

/-- The POST handler of the second unnamed variant (part_001): the last
message is removed with pop, validation is as in route.ts, and the catch
returns the raw optional message property. -/
def POST_part001 {ρ : Type} (mkEngine : Except JsError (RawCallArgs → Except JsError ρ))
    (body : Body) : HttpResponse ρ × List RawCallArgs :=
  match body with
  | .malformed e => (.jsonError 500 e.message, [])
  | .parsed messages =>
    match messages with
    | none => (.jsonError 400 (some validationError), [])
    | some ms =>
      match ms.getLast? with
      | none => (.jsonError 400 (some validationError), [])
      | some lastMessage =>
        if lastMessage.role = "user" then postValidated001 mkEngine ms lastMessage
        else (.jsonError 400 (some validationError), [])

/-- The validity predicate the spec states for conversations: present,
non-empty, and the last element has the user role. -/
def validConversation : Option (List IncomingMessage) → Bool
  | none => false
  | some ms =>
    match ms.getLast? with
    | none => false
    | some m => m.role == "user"

/-- The textual contribution of one part as the spec words it: a string part
is itself, an object part contributes the String() coercion of its text
field when present and the empty string otherwise, and any other part
contributes the empty string. -/
def specContribution : JsVal → String
  | .jstr s => s
  | .jobj fields =>
    match fields.lookup "text" with
    | some t => jsToString t
    | none => ""
  | _ => ""

@[simp] theorem exceptBind_ok {ε α β : Type} (a : α) (f : α → Except ε β) :
    (Except.ok a >>= f : Except ε β) = f a := rfl

@[simp] theorem exceptBind_error {ε α β : Type} (e : ε) (f : α → Except ε β) :
    (Except.error e >>= f : Except ε β) = Except.error e := rfl

@[simp] theorem exceptPure_eq {ε α : Type} (a : α) :
    (pure a : Except ε α) = Except.ok a := rfl

@[simp] theorem exceptMap_ok {ε α β : Type} (f : α → β) (a : α) :
    (f <$> (Except.ok a : Except ε α)) = Except.ok (f a) := rfl

@[simp] theorem exceptMap_error {ε α β : Type} (f : α → β) (e : ε) :
    (f <$> (Except.error e : Except ε α)) = Except.error e := rfl

theorem mapExcept_nil {α β ε : Type} (f : α → Except ε β) :
    mapExcept f [] = .ok [] := rfl

theorem mapExcept_cons {α β ε : Type} (f : α → Except ε β) (x : α) (xs : List α) :
    mapExcept f (x :: xs) = do
      let y ← f x
      let ys ← mapExcept f xs
      return y :: ys := rfl

theorem mapExcept_append {α β ε : Type} (f : α → Except ε β) (l1 l2 : List α) :
    mapExcept f (l1 ++ l2) = do
      let a ← mapExcept f l1
      let b ← mapExcept f l2
      return a ++ b := by
  induction l1 with
  | nil =>
    simp only [List.nil_append, mapExcept_nil, exceptBind_ok]
    cases mapExcept f l2 with
    | ok b => simp
    | error e => simp
  | cons x xs ih =>
    simp only [List.cons_append, mapExcept_cons]
    cases f x with
    | error e => simp
    | ok y =>
      simp only [exceptBind_ok, ih]
      cases mapExcept f xs with
      | error e => simp
      | ok a =>
        cases mapExcept f l2 with
        | error e => simp
        | ok b => simp

theorem partContribution_of_safe (p : JsVal) (hp : p.isNonStringPrimitive = false) :
    partContribution p = .ok (specContribution p) := by
  cases p with
  | jstr s => rfl
  | jnum n => simp [JsVal.isNonStringPrimitive] at hp
  | jbool b => simp [JsVal.isNonStringPrimitive] at hp
  | jnull => rfl
  | jundef => rfl
  | jarr xs => rfl
  | jobj fields =>
    simp only [partContribution, specContribution]
    cases fields.lookup "text" with
    | some t => rfl
    | none => rfl

theorem partContribution_of_primitive (p : JsVal) (hp : p.isNonStringPrimitive = true) :
    partContribution p = .error ⟨some "Cannot use in operator to search for text in primitive"⟩ := by
  cases p <;> simp_all [JsVal.isNonStringPrimitive, partContribution]

theorem mapExcept_parts_safe (parts : List JsVal)
    (hs : ∀ p ∈ parts, p.isNonStringPrimitive = false) :
    mapExcept partContribution parts = .ok (parts.map specContribution) := by
  induction parts with
  | nil => rfl
  | cons x xs ih =>
    have hx := partContribution_of_safe x (hs x (List.mem_cons_self x xs))
    have ihh := ih (fun p hp => hs p (List.mem_cons_of_mem x hp))
    simp [mapExcept_cons, hx, ihh]

theorem mapExcept_parts_err (parts : List JsVal) (p : JsVal) (hmem : p ∈ parts)
    (hp : p.isNonStringPrimitive = true) :
    ∃ e, mapExcept partContribution parts = .error e := by
  induction parts with
  | nil => cases hmem
  | cons x xs ih =>
    by_cases hx : x.isNonStringPrimitive = true
    · exact ⟨⟨some "Cannot use in operator to search for text in primitive"⟩,
        by simp [mapExcept_cons, partContribution_of_primitive x hx]⟩
    · have hx3 : x.isNonStringPrimitive = false := by
        revert hx
        cases x.isNonStringPrimitive <;> simp
      have hmem2 : p ∈ xs := by
        rcases List.mem_cons.mp hmem with h | h
        · rw [h] at hp
          exact absurd hp hx
        · exact h
      obtain ⟨e, he⟩ := ih hmem2
      exact ⟨e, by simp [mapExcept_cons, partContribution_of_safe x hx3, he]⟩

theorem chatHistoryOf_append_user (init : List IncomingMessage) (lm : IncomingMessage)
    (hrole : lm.role = "user") {h : List ChatMessage} {uc : String}
    (hh : chatHistoryOf init = .ok h) (hc : normContent lm.content = .ok uc) :
    chatHistoryOf (init ++ [lm]) = .ok (h ++ [⟨"user", uc⟩]) := by
  have hpred : lm.role ∈ allowedRoles := by rw [hrole]; simp [allowedRoles]
  have hnm : normMessage lm = .ok ⟨"user", uc⟩ := by
    simp only [normMessage, hc, exceptBind_ok, exceptPure_eq]
    rw [hrole]
  unfold chatHistoryOf at hh ⊢
  rw [List.filter_append]
  have hfl : List.filter (fun m => allowedRoles.contains m.role) [lm] = [lm] := by
    simp [List.filter_cons, hpred]
  rw [hfl, mapExcept_append, hh]
  simp [mapExcept_cons, mapExcept_nil, hnm]

theorem postValidated_fst {ρ : Type} (mkEngine : Except JsError (CallArgs → Except JsError ρ))
    (ms : List IncomingMessage) (lm : IncomingMessage) :
    (∃ r, (postValidated mkEngine ms lm).1 = .streaming r) ∨
    (∃ e : JsError, (postValidated mkEngine ms lm).1 = err500 e) := by
  have hOk : ∀ (r : ρ) (tr : List CallArgs),
      (∃ r2, ((HttpResponse.streaming r, tr) : HttpResponse ρ × List CallArgs).1 = .streaming r2) ∨
      (∃ e : JsError, ((HttpResponse.streaming r, tr) : HttpResponse ρ × List CallArgs).1 = err500 e) :=
    fun r tr => Or.inl ⟨r, rfl⟩
  have hErr : ∀ (e : JsError) (tr : List CallArgs),
      (∃ r2, ((err500 e, tr) : HttpResponse ρ × List CallArgs).1 = .streaming r2) ∨
      (∃ e2 : JsError, ((err500 e, tr) : HttpResponse ρ × List CallArgs).1 = err500 e2) :=
    fun e tr => Or.inr ⟨e, rfl⟩
  simp only [postValidated]
  repeat' split
  all_goals first | exact hOk _ _ | exact hErr _ _

theorem postValidated000_fst {ρ : Type} (mkEngine : Except JsError (CallArgs → Except JsError ρ))
    (ms : List IncomingMessage) (lm : IncomingMessage) :
    (∃ r, (postValidated000 mkEngine ms lm).1 = .streaming r) ∨
    (∃ e : JsError, (postValidated000 mkEngine ms lm).1 = err500 e) := by
  have hOk : ∀ (r : ρ) (tr : List CallArgs),
      (∃ r2, ((HttpResponse.streaming r, tr) : HttpResponse ρ × List CallArgs).1 = .streaming r2) ∨
      (∃ e : JsError, ((HttpResponse.streaming r, tr) : HttpResponse ρ × List CallArgs).1 = err500 e) :=
    fun r tr => Or.inl ⟨r, rfl⟩
  have hErr : ∀ (e : JsError) (tr : List CallArgs),
      (∃ r2, ((err500 e, tr) : HttpResponse ρ × List CallArgs).1 = .streaming r2) ∨
      (∃ e2 : JsError, ((err500 e, tr) : HttpResponse ρ × List CallArgs).1 = err500 e2) :=
    fun e tr => Or.inr ⟨e, rfl⟩
  simp only [postValidated000]
  repeat' split
  all_goals first | exact hOk _ _ | exact hErr _ _

theorem postValidated001_fst {ρ : Type} (mkEngine : Except JsError (RawCallArgs → Except JsError ρ))
    (ms : List IncomingMessage) (lm : IncomingMessage) :
    (∃ r, (postValidated001 mkEngine ms lm).1 = .streaming r) ∨
    (∃ e : JsError, (postValidated001 mkEngine ms lm).1 = .jsonError 500 e.message) := by
  have hOk : ∀ (r : ρ) (tr : List RawCallArgs),
      (∃ r2, ((HttpResponse.streaming r, tr) : HttpResponse ρ × List RawCallArgs).1 = .streaming r2) ∨
      (∃ e : JsError,
        ((HttpResponse.streaming r, tr) : HttpResponse ρ × List RawCallArgs).1 = .jsonError 500 e.message) :=
    fun r tr => Or.inl ⟨r, rfl⟩
  have hErr : ∀ (e : JsError) (tr : List RawCallArgs),
      (∃ r2, ((HttpResponse.jsonError 500 e.message, tr) : HttpResponse ρ × List RawCallArgs).1 =
        .streaming r2) ∨
      (∃ e2 : JsError,
        ((HttpResponse.jsonError 500 e.message, tr) : HttpResponse ρ × List RawCallArgs).1 =
          .jsonError 500 e2.message) :=
    fun e tr => Or.inr ⟨e, rfl⟩
  simp only [postValidated001]
  repeat' split
  all_goals first | exact hOk _ _ | exact hErr _ _

theorem POST_valid_eq {ρ : Type} (mkEngine : Except JsError (CallArgs → Except JsError ρ))
    {ms : List IncomingMessage} {lm : IncomingMessage}
    (hl : ms.getLast? = some lm) (hrole : lm.role = "user") :
    POST mkEngine (Body.parsed (some ms)) = postValidated mkEngine ms lm := by
  simp only [POST, hl]
  rw [if_pos hrole]

theorem POST_part000_valid_eq {ρ : Type} (mkEngine : Except JsError (CallArgs → Except JsError ρ))
    {ms : List IncomingMessage} {lm : IncomingMessage}
    (hl : ms.getLast? = some lm) (hrole : lm.role = "user") :
    POST_part000 mkEngine (Body.parsed (some ms)) = postValidated000 mkEngine ms lm := by
  simp only [POST_part000, hl]
  rw [if_pos hrole]

theorem POST_part001_valid_eq {ρ : Type} (mkEngine : Except JsError (RawCallArgs → Except JsError ρ))
    {ms : List IncomingMessage} {lm : IncomingMessage}
    (hl : ms.getLast? = some lm) (hrole : lm.role = "user") :
    POST_part001 mkEngine (Body.parsed (some ms)) = postValidated001 mkEngine ms lm := by
  simp only [POST_part001, hl]
  rw [if_pos hrole]

/-- C1: for every parsed request whose messages list is absent or empty, or
whose last element does not have the user role, the route.ts handler returns
HTTP 400 with the fixed validation body and makes no engine call (the result
is a constant independent of the engine); for every conversation whose last
element has the user role, the handler proceeds past validation and never
produces a 400 status. -/
theorem POST_validation {ρ : Type} (mkEngine : Except JsError (CallArgs → Except JsError ρ))
    (messages : Option (List IncomingMessage)) :
    (validConversation messages = false →
      POST mkEngine (Body.parsed messages) =
        (HttpResponse.jsonError 400 (some validationError), [])) ∧
    (validConversation messages = true →
      (POST mkEngine (Body.parsed messages)).1.status ≠ 400) := by
  constructor
  · intro hv
    match messages with
    | none => rfl
    | some ms =>
      cases hl : ms.getLast? with
      | none => simp only [POST, hl]
      | some lm =>
        simp only [validConversation, hl] at hv
        have hrole : ¬ lm.role = "user" := by
          intro h
          rw [h] at hv
          simp at hv
        simp only [POST, hl]
        rw [if_neg hrole]
  · intro hv
    match messages with
    | none => nomatch hv
    | some ms =>
      cases hl : ms.getLast? with
      | none =>
        simp only [validConversation, hl] at hv
        exact absurd hv (by simp)
      | some lm =>
        simp only [validConversation, hl] at hv
        have hrole : lm.role = "user" := by simpa using hv
        rw [POST_valid_eq mkEngine hl hrole]
        rcases postValidated_fst mkEngine ms lm with ⟨r, hr⟩ | ⟨e, he⟩
        · rw [hr]
          simp only [HttpResponse.status]
          omega
        · rw [he]
          simp only [err500, HttpResponse.status]
          omega

/-- C1 witness: the empty conversation is rejected with the fixed 400 body
and no engine call, and a singleton user conversation proceeds past
validation. -/
theorem POST_validation_witness :
    POST (Except.error ⟨none⟩ : Except JsError (CallArgs → Except JsError Unit))
        (Body.parsed (some [])) =
      (HttpResponse.jsonError 400 (some validationError), []) ∧
    (POST (Except.error ⟨none⟩ : Except JsError (CallArgs → Except JsError Unit))
        (Body.parsed (some [⟨"user", JsVal.jstr "hola"⟩]))).1.status ≠ 400 :=
  ⟨(POST_validation (Except.error ⟨none⟩) (some [])).1 rfl,
   (POST_validation (Except.error ⟨none⟩) (some [⟨"user", JsVal.jstr "hola"⟩])).2 rfl⟩

/-- C7: role filtering retains exactly the messages whose role is in the
allowed set: the retained list is a sublist of the input (so relative order
is preserved), every retained message has an allowed role, every allowed
message is retained, the chatHistory construction normalizes exactly this
retained list, and an input whose messages all have unsupported roles is
dropped silently, yielding the empty history with no raised failure. -/
theorem role_filter (ms : List IncomingMessage) :
    (ms.filter fun m => allowedRoles.contains m.role).Sublist ms ∧
    (∀ m ∈ ms.filter fun m => allowedRoles.contains m.role,
      allowedRoles.contains m.role = true) ∧
    (∀ m ∈ ms, allowedRoles.contains m.role = true →
      m ∈ ms.filter fun m => allowedRoles.contains m.role) ∧
    chatHistoryOf ms = mapExcept normMessage (ms.filter fun m => allowedRoles.contains m.role) ∧
    ((∀ m ∈ ms, allowedRoles.contains m.role = false) → chatHistoryOf ms = .ok []) := by
  refine ⟨List.filter_sublist ms, ?_, ?_, rfl, ?_⟩
  · intro m hm
    exact (List.mem_filter.mp hm).2
  · intro m hm hr
    exact List.mem_filter.mpr ⟨hm, hr⟩
  · intro hall
    have hnil : ms.filter (fun m => allowedRoles.contains m.role) = [] := by
      rw [List.filter_eq_nil_iff]
      intro a ha
      rw [hall a ha]
      simp
    unfold chatHistoryOf
    rw [hnil]
    rfl

/-- C7 witness: a single message with the unsupported data role is dropped
silently, yielding the empty normalized history. -/
theorem role_filter_witness :
    chatHistoryOf [⟨"data", JsVal.jstr "x"⟩] = .ok [] :=
  (role_filter [⟨"data", JsVal.jstr "x"⟩]).2.2.2.2 (by
    intro m hm
    rw [List.mem_singleton] at hm
    rw [hm]
    rfl)

/-- Reinjection of an already normalized message as an incoming one: the
same role and the same content as a plain string value. -/
def normalizedAsIncoming (m : ChatMessage) : IncomingMessage :=
  ⟨m.role, JsVal.jstr m.content⟩

/-- C9: normalization is idempotent: a list of already normalized messages
(roles in the allowed set, string contents) passes through the role filter
and the content flattening completely unchanged. -/
theorem normalize_idempotent (l : List ChatMessage)
    (hroles : ∀ m ∈ l, allowedRoles.contains m.role = true) :
    chatHistoryOf (l.map normalizedAsIncoming) = .ok l := by
  induction l with
  | nil => rfl
  | cons x xs ih =>
    have hx : allowedRoles.contains x.role = true := hroles x (List.mem_cons_self x xs)
    have hx2 : x.role ∈ allowedRoles := by simpa using hx
    have ihh := ih fun m hm => hroles m (List.mem_cons_of_mem x hm)
    have hnx : normMessage (normalizedAsIncoming x) = .ok x := rfl
    have hfil : (normalizedAsIncoming x :: List.map normalizedAsIncoming xs).filter
          (fun m => allowedRoles.contains m.role) =
        normalizedAsIncoming x :: (List.map normalizedAsIncoming xs).filter
          (fun m => allowedRoles.contains m.role) :=
      List.filter_cons_of_pos hx
    unfold chatHistoryOf at ihh ⊢
    rw [List.map_cons, hfil, mapExcept_cons, hnx]
    simp only [exceptBind_ok]
    rw [ihh]
    simp only [exceptBind_ok, exceptPure_eq]

/-- C9 witness: a singleton assistant message with string content is
returned unchanged by normalization. -/
theorem normalize_idempotent_witness :
    chatHistoryOf (List.map normalizedAsIncoming [⟨"assistant", "hola"⟩]) =
      .ok [⟨"assistant", "hola"⟩] :=
  normalize_idempotent [⟨"assistant", "hola"⟩] (by
    intro m hm
    rw [List.mem_singleton] at hm
    rw [hm]
    rfl)

/-- A concrete engine that rejects the options shape and accepts anything
else, used to witness the fallback path. -/
def c10engine : CallArgs → Except JsError String
  | .options _ _ _ => .error ⟨some "options shape unsupported"⟩
  | _ => .ok "ok"

/-- C10: in route.ts, whenever the options object invocation raises, the
fallback invokes the engine with exactly the normalized current turn string
and the boolean true (the two argument positional shape), so the normalized
chat history is not passed to the engine at all on the fallback path; the
recorded trace is exactly the primary call followed by that two argument
call. -/
theorem fallback_two_args {ρ : Type} (chat : CallArgs → Except JsError ρ)
    (u : String) (h : List ChatMessage) (e : JsError)
    (hfail : chat (CallArgs.options u h true) = .error e) :
    (chatWithFallback chat u h).1 = chat (CallArgs.positional2 u true) ∧
    (chatWithFallback chat u h).2 =
      [CallArgs.options u h true, CallArgs.positional2 u true] := by
  simp only [chatWithFallback]
  rw [hfail]
  exact ⟨rfl, rfl⟩

/-- C10 witness: with a concrete engine that rejects the options shape, the
fallback result is the outcome of the two argument positional call and the
trace is the primary call followed by it. -/
theorem fallback_two_args_witness :
    (chatWithFallback c10engine "hola" [⟨"assistant", "previo"⟩]).1 =
      c10engine (CallArgs.positional2 "hola" true) ∧
    (chatWithFallback c10engine "hola" [⟨"assistant", "previo"⟩]).2 =
      [CallArgs.options "hola" [⟨"assistant", "previo"⟩] true,
       CallArgs.positional2 "hola" true] :=
  fallback_two_args c10engine "hola" [⟨"assistant", "previo"⟩]
    ⟨some "options shape unsupported"⟩ rfl

/-- C2 amended: in route.ts the primary invocation is the options object
shape; on any raised failure from it the adapter retries exactly once with
the two argument positional shape (message and stream flag only, without the
history); when both attempts fail the caller observes the error of the
fallback attempt, not the original triggering one; no call beyond these two
is ever made. -/
theorem chatWithFallback_spec {ρ : Type} (chat : CallArgs → Except JsError ρ)
    (u : String) (h : List ChatMessage) :
    (∀ r, chat (CallArgs.options u h true) = .ok r →
      chatWithFallback chat u h = (.ok r, [CallArgs.options u h true])) ∧
    (∀ e, chat (CallArgs.options u h true) = .error e →
      chatWithFallback chat u h =
        (chat (CallArgs.positional2 u true),
         [CallArgs.options u h true, CallArgs.positional2 u true])) := by
  constructor
  · intro r hr
    simp only [chatWithFallback]
    rw [hr]
  · intro e he
    simp only [chatWithFallback]
    rw [he]

/-- C2 witness: a concrete engine failing on both shapes surfaces the
fallback outcome after exactly the two recorded calls. -/
theorem chatWithFallback_spec_witness :
    chatWithFallback (fun _ => (Except.error ⟨some "boom"⟩ : Except JsError Unit)) "q" [] =
      (Except.error ⟨some "boom"⟩,
       [CallArgs.options "q" [] true, CallArgs.positional2 "q" true]) :=
  (chatWithFallback_spec (fun _ => (Except.error ⟨some "boom"⟩ : Except JsError Unit)) "q" []).2
    ⟨some "boom"⟩ rfl

/-- A concrete engine whose options shape fails while both positional shapes
succeed with distinguishable responses. -/
def engineCx : CallArgs → Except JsError String
  | .options _ _ _ => .error ⟨some "primary failed"⟩
  | .positional3 _ _ _ => .ok "via positional3"
  | .positional2 _ _ => .ok "via positional2"

/-- A concrete engine failing on every shape, with distinguishable errors. -/
def engineBothFail : CallArgs → Except JsError String
  | .options _ _ _ => .error ⟨some "first error"⟩
  | _ => .error ⟨some "second error"⟩

/-- C2 counterexample: the retry does not use the three argument positional
shape carrying the history: on a concrete engine whose options shape fails,
the adapter result is the two argument outcome, which differs from what the
three argument positional shape would have returned; and when both attempts
fail, the caller observes the second error, not the original triggering
one. -/
theorem chatWithFallback_counterexample :
    (chatWithFallback engineCx "m" []).1 = .ok "via positional2" ∧
    engineCx (CallArgs.positional3 "m" [] true) = .ok "via positional3" ∧
    ((Except.ok "via positional2" : Except JsError String) ≠ .ok "via positional3") ∧
    (chatWithFallback engineBothFail "m" []).1 = .error ⟨some "second error"⟩ ∧
    (JsError.mk (some "second error") ≠ JsError.mk (some "first error")) := by
  refine ⟨rfl, rfl, ?_, rfl, ?_⟩
  · intro hcontra
    have hs := Except.ok.inj hcontra
    exact absurd hs (by decide)
  · decide

/-- C3 amended: content normalization returns string content unchanged; null
and undefined normalize to the empty string; any other non-array value is
coerced with String(); an array of parts whose elements are all
non-primitive flattens to the contributions joined by a single space, where
a string part contributes itself, an object part with a text field
contributes the String() coercion of that field and any other such part
contributes the empty string; but a part that is a non-string primitive (a
number or a boolean) raises a TypeError instead of contributing the empty
string, and the failure propagates to the handler failure path. -/
theorem normContent_amended (v : JsVal) :
    (∀ s, v = .jstr s → normContent v = .ok s) ∧
    ((v = .jnull ∨ v = .jundef) → normContent v = .ok "") ∧
    (v.isString = false → (∀ parts, v ≠ .jarr parts) → v ≠ .jnull → v ≠ .jundef →
      normContent v = .ok (jsToString v)) ∧
    (∀ parts, v = .jarr parts →
      ((∀ p ∈ parts, p.isNonStringPrimitive = false) →
        normContent v = .ok (String.intercalate " " (parts.map specContribution))) ∧
      ((∃ p ∈ parts, p.isNonStringPrimitive = true) →
        ∃ e, normContent v = .error e)) := by
  refine ⟨?_, ?_, ?_, ?_⟩
  · intro s hs
    rw [hs]
    rfl
  · intro hne
    rcases hne with hn | hn <;> (rw [hn]; rfl)
  · intro hstr harr hnull hundef
    cases v with
    | jstr s => simp [JsVal.isString] at hstr
    | jarr parts => exact absurd rfl (harr parts)
    | jnull => exact absurd rfl hnull
    | jundef => exact absurd rfl hundef
    | jnum n => rfl
    | jbool b => rfl
    | jobj fields => rfl
  · intro parts hp
    subst hp
    constructor
    · intro hsafe
      simp only [normContent]
      rw [mapExcept_parts_safe parts hsafe]
      rfl
    · intro hex
      obtain ⟨p, hmem, hprim⟩ := hex
      obtain ⟨e, he⟩ := mapExcept_parts_err parts p hmem hprim
      refine ⟨e, ?_⟩
      simp only [normContent]
      rw [he]
      rfl

/-- C3 witness: the example array flattens with single space separators and
an empty contribution from the object lacking a text field, producing the
double space. -/
theorem normContent_amended_witness :
    normContent (JsVal.jarr [JsVal.jstr "a", JsVal.jobj [("text", JsVal.jstr "b")],
      JsVal.jobj [], JsVal.jstr "c"]) = .ok "a b  c" := by
  have h := ((normContent_amended (JsVal.jarr [JsVal.jstr "a",
      JsVal.jobj [("text", JsVal.jstr "b")], JsVal.jobj [], JsVal.jstr "c"])).2.2.2
    [JsVal.jstr "a", JsVal.jobj [("text", JsVal.jstr "b")], JsVal.jobj [], JsVal.jstr "c"]
    rfl).1 (by decide)
  exact h

/-- C3 counterexample: a part that is the number five does not contribute
the empty string: the flattening raises a TypeError instead, so the
normalization of the singleton array containing it does not succeed at
all. -/
theorem normContent_counterexample :
    normContent (JsVal.jarr [JsVal.jnum "5"]) =
      .error ⟨some "Cannot use in operator to search for text in primitive"⟩ ∧
    (normContent (JsVal.jarr [JsVal.jnum "5"])).isOk = false :=
  ⟨rfl, rfl⟩

theorem mapExcept_normMessage_roles (l : List IncomingMessage) (h : List ChatMessage)
    (hm : mapExcept normMessage l = .ok h) :
    h.map (fun m => m.role) = l.map (fun m => m.role) := by
  induction l generalizing h with
  | nil =>
    cases hm
    rfl
  | cons x xs ih =>
    rw [mapExcept_cons] at hm
    cases hny : normMessage x with
    | error e =>
      rw [hny] at hm
      simp at hm
    | ok y =>
      rw [hny] at hm
      simp only [exceptBind_ok] at hm
      cases hys : mapExcept normMessage xs with
      | error e =>
        rw [hys] at hm
        simp at hm
      | ok ys =>
        rw [hys] at hm
        simp only [exceptBind_ok, exceptPure_eq] at hm
        cases hm
        have hyrole : y.role = x.role := by
          unfold normMessage at hny
          cases hnc : normContent x.content with
          | error e =>
            rw [hnc] at hny
            simp at hny
          | ok c =>
            rw [hnc] at hny
            simp only [exceptBind_ok, exceptPure_eq] at hny
            cases hny
            rfl
        simp only [List.map_cons, hyrole, ih ys hys]

/-- C4 amended: the role invariant holds in every variant: each message of a
history handed to the engine has a role in the allowed set; in route.ts the
content of each history element is moreover the flattened string produced by
normalization (the ChatMessage type), while the part_001 variant passes
content through unchanged, so only the role half of the invariant holds
there. -/
theorem history_role_invariant (prior : List IncomingMessage) :
    (∀ h, chatHistoryOf prior = .ok h → ∀ m ∈ h, allowedRoles.contains m.role = true) ∧
    (∀ m ∈ chatHistoryRaw prior, allowedRoles.contains m.role = true) := by
  constructor
  · intro h hok m hm
    have hroles := mapExcept_normMessage_roles
      (prior.filter fun m => allowedRoles.contains m.role) h hok
    have hmem : m.role ∈ h.map (fun m => m.role) := List.mem_map_of_mem _ hm
    rw [hroles] at hmem
    obtain ⟨im, him, hrole⟩ := List.mem_map.mp hmem
    have hpred := (List.mem_filter.mp him).2
    rw [← hrole]
    exact hpred
  · intro m hm
    exact (List.mem_filter.mp hm).2

/-- C4 witness: a singleton assistant history satisfies the role invariant
at a concrete input, through the route.ts normalization. -/
theorem history_role_invariant_witness :
    allowedRoles.contains "assistant" = true :=
  (history_role_invariant [⟨"assistant", JsVal.jstr "x"⟩]).1
    [⟨"assistant", "x"⟩] rfl ⟨"assistant", "x"⟩ (List.mem_singleton.mpr rfl)

/-- Messages whose first element carries raw part array content, for the raw
variant counterexample. -/
def c4msgs : List IncomingMessage :=
  [⟨"user", JsVal.jarr [JsVal.jobj [("text", JsVal.jstr "hola")]]⟩, ⟨"user", JsVal.jstr "q"⟩]

/-- C4 counterexample: the part_001 variant hands the chat engine a history
message whose content is still a part array, not a flattened string: with a
trivial engine, the single recorded call carries the raw array content. -/
theorem part001_rawContent_counterexample :
    (POST_part001 (Except.ok fun _ => (Except.ok () : Except JsError Unit))
        (Body.parsed (some c4msgs))).2 =
      [RawCallArgs.positional3 (JsVal.jstr "q")
        [⟨"user", JsVal.jarr [JsVal.jobj [("text", JsVal.jstr "hola")]]⟩] true] ∧
    JsVal.isString (JsVal.jarr [JsVal.jobj [("text", JsVal.jstr "hola")]]) = false :=
  ⟨rfl, rfl⟩

theorem chatWithFallback_trace_head {ρ : Type} (chat : CallArgs → Except JsError ρ)
    (u : String) (h : List ChatMessage) :
    (chatWithFallback chat u h).2.head? = some (CallArgs.options u h true) := by
  simp only [chatWithFallback]
  cases chat (CallArgs.options u h true) with
  | ok r => rfl
  | error e => rfl

/-- C5 amended: for every validated conversation, in route.ts the split
produces exactly the normalized conversation with its last element removed
as the history (the normalization of the whole conversation equals the
history with the normalized last user message appended) and the current turn
is the normalized content string of that removed element, and the handler
invokes the engine first with exactly this pair; the part_001 variant also
removes exactly the last element, but performs no normalization there: its
single engine call carries the raw last content value as the message and the
role filtered history with verbatim contents. -/
theorem split_correct {ρ : Type} (chatEngine : CallArgs → Except JsError ρ)
    (rawEngine : RawCallArgs → Except JsError ρ)
    (ms : List IncomingMessage) (lm : IncomingMessage)
    (h : List ChatMessage) (uc : String)
    (hl : ms.getLast? = some lm) (hrole : lm.role = "user")
    (hh : chatHistoryOf ms.dropLast = .ok h)
    (hc : normContent lm.content = .ok uc) :
    chatHistoryOf ms = .ok (h ++ [⟨"user", uc⟩]) ∧
    (POST (Except.ok chatEngine) (Body.parsed (some ms))).2.head? =
      some (CallArgs.options uc h true) ∧
    (POST_part001 (Except.ok rawEngine) (Body.parsed (some ms))).2 =
      [RawCallArgs.positional3 lm.content (chatHistoryRaw ms.dropLast) true] := by
  have hsplit : ms = ms.dropLast ++ [lm] :=
    (List.dropLast_append_getLast? lm hl).symm
  refine ⟨?_, ?_, ?_⟩
  · rw [hsplit]
    exact chatHistoryOf_append_user ms.dropLast lm hrole hh hc
  · rw [POST_valid_eq (Except.ok chatEngine) hl hrole]
    simp only [postValidated, hh, hc]
    cases hcf : (chatWithFallback chatEngine uc h).1 with
    | ok r => exact chatWithFallback_trace_head chatEngine uc h
    | error e => exact chatWithFallback_trace_head chatEngine uc h
  · rw [POST_part001_valid_eq (Except.ok rawEngine) hl hrole]
    simp only [postValidated001]
    cases rawEngine (RawCallArgs.positional3 lm.content (chatHistoryRaw ms.dropLast) true) with
    | ok r => rfl
    | error e => rfl

/-- C5 witness: a two message conversation splits into the singleton
normalized assistant history plus the user turn, the route.ts engine
receives exactly this pair first, and the part_001 engine receives the raw
content with the verbatim history. -/
theorem split_correct_witness :
    chatHistoryOf [⟨"assistant", JsVal.jstr "previo"⟩, ⟨"user", JsVal.jstr "pregunta"⟩] =
      .ok ([⟨"assistant", "previo"⟩] ++ [⟨"user", "pregunta"⟩]) ∧
    (POST (Except.ok fun _ => (Except.ok "r" : Except JsError String))
        (Body.parsed (some [⟨"assistant", JsVal.jstr "previo"⟩,
          ⟨"user", JsVal.jstr "pregunta"⟩]))).2.head? =
      some (CallArgs.options "pregunta" [⟨"assistant", "previo"⟩] true) ∧
    (POST_part001 (Except.ok fun _ => (Except.ok "r" : Except JsError String))
        (Body.parsed (some [⟨"assistant", JsVal.jstr "previo"⟩,
          ⟨"user", JsVal.jstr "pregunta"⟩]))).2 =
      [RawCallArgs.positional3 (JsVal.jstr "pregunta")
        [⟨"assistant", JsVal.jstr "previo"⟩] true] :=
  split_correct (fun _ => (Except.ok "r" : Except JsError String))
    (fun _ => (Except.ok "r" : Except JsError String))
    [⟨"assistant", JsVal.jstr "previo"⟩, ⟨"user", JsVal.jstr "pregunta"⟩]
    ⟨"user", JsVal.jstr "pregunta"⟩ [⟨"assistant", "previo"⟩] "pregunta"
    rfl rfl rfl rfl

/-- A singleton user conversation whose content is a part array, for the raw
variant split counterexample. -/
def c5msgs : List IncomingMessage :=
  [⟨"user", JsVal.jarr [JsVal.jobj [("text", JsVal.jstr "hola")],
    JsVal.jobj [("text", JsVal.jstr "mundo")]]⟩]

/-- C5 counterexample: the part_001 variant does not pass the normalized
content string of the removed last element as the current turn: the engine
call carries the raw part array itself, even though its normalized string
would be the flattened text; nor is any history content normalized there. -/
theorem part001_split_counterexample :
    (POST_part001 (Except.ok fun _ => (Except.ok () : Except JsError Unit))
        (Body.parsed (some c5msgs))).2 =
      [RawCallArgs.positional3
        (JsVal.jarr [JsVal.jobj [("text", JsVal.jstr "hola")],
          JsVal.jobj [("text", JsVal.jstr "mundo")]]) [] true] ∧
    normContent (JsVal.jarr [JsVal.jobj [("text", JsVal.jstr "hola")],
        JsVal.jobj [("text", JsVal.jstr "mundo")]]) = .ok "hola mundo" ∧
    JsVal.isString (JsVal.jarr [JsVal.jobj [("text", JsVal.jstr "hola")],
        JsVal.jobj [("text", JsVal.jstr "mundo")]]) = false :=
  ⟨rfl, rfl, rfl⟩

/-- C6: in the augmentation variant (part_000), a single system message is
prepended at the front of the history before the chat engine is invoked: the
engine receives exactly the system message followed by the unchanged
normalized history, the prepended message has the system role, and its
content contains the refusal sentence verbatim. -/
theorem part000_prepends_system {ρ : Type} (chatEngine : CallArgs → Except JsError ρ)
    (ms : List IncomingMessage) (lm : IncomingMessage)
    (h : List ChatMessage) (uc : String)
    (hl : ms.getLast? = some lm) (hrole : lm.role = "user")
    (hh : chatHistoryOf ms.dropLast = .ok h)
    (hc : normContent lm.content = .ok uc) :
    (POST_part000 (Except.ok chatEngine) (Body.parsed (some ms))).2 =
      [CallArgs.positional3 uc (systemMessage :: h) true] ∧
    systemMessage.role = "system" ∧
    systemPromptContent = systemPromptPre ++ refusalText ++ systemPromptPost := by
  refine ⟨?_, rfl, ?_⟩
  · rw [POST_part000_valid_eq (Except.ok chatEngine) hl hrole]
    simp only [postValidated000, hh, hc]
    cases chatEngine (CallArgs.positional3 uc (systemMessage :: h) true) with
    | ok r => rfl
    | error e => rfl
  · rfl

/-- C6 witness: with a concrete engine and conversation, the single engine
call of the augmentation variant carries the system message at index zero
followed by the unchanged history. -/
theorem part000_prepends_system_witness :
    (POST_part000 (Except.ok fun _ => (Except.ok "r" : Except JsError String))
        (Body.parsed (some [⟨"assistant", JsVal.jstr "previo"⟩,
          ⟨"user", JsVal.jstr "pregunta"⟩]))).2 =
      [CallArgs.positional3 "pregunta" (systemMessage :: [⟨"assistant", "previo"⟩]) true] ∧
    systemMessage.role = "system" ∧
    systemPromptContent = systemPromptPre ++ refusalText ++ systemPromptPost :=
  part000_prepends_system (fun _ => (Except.ok "r" : Except JsError String))
    [⟨"assistant", JsVal.jstr "previo"⟩, ⟨"user", JsVal.jstr "pregunta"⟩]
    ⟨"user", JsVal.jstr "pregunta"⟩ [⟨"assistant", "previo"⟩] "pregunta"
    rfl rfl rfl rfl

/-- C8 amended: no failure escapes either handler: every route.ts response
is a streaming success, the fixed 400 validation envelope, or a 500 envelope
whose error field is always present and equals the failure message when
available and the generic fallback string otherwise; the part_001 variant
likewise always answers with one of these three shapes, but its 500 envelope
carries the raw optional message property, which is absent when the failure
has no message. -/
theorem error_envelope {ρ : Type}
    (mkEngine : Except JsError (CallArgs → Except JsError ρ))
    (mkEngineRaw : Except JsError (RawCallArgs → Except JsError ρ)) (body : Body) :
    ((∃ r, (POST mkEngine body).1 = .streaming r) ∨
      (POST mkEngine body).1 = .jsonError 400 (some validationError) ∨
      (∃ e : JsError, (POST mkEngine body).1 =
        .jsonError 500 (some (errMessageOr e "Internal Server Error")))) ∧
    ((∃ r, (POST_part001 mkEngineRaw body).1 = .streaming r) ∨
      (POST_part001 mkEngineRaw body).1 = .jsonError 400 (some validationError) ∨
      (∃ e : JsError, (POST_part001 mkEngineRaw body).1 = .jsonError 500 e.message)) ∧
    (∀ m f, errMessageOr ⟨some m⟩ f = m) ∧
    (∀ f, errMessageOr ⟨none⟩ f = f) := by
  refine ⟨?_, ?_, fun m f => rfl, fun f => rfl⟩
  · cases body with
    | malformed e => exact Or.inr (Or.inr ⟨e, rfl⟩)
    | parsed messages =>
      cases messages with
      | none => exact Or.inr (Or.inl rfl)
      | some ms =>
        cases hl : ms.getLast? with
        | none =>
          have h400 : POST mkEngine (Body.parsed (some ms)) =
              (HttpResponse.jsonError 400 (some validationError), []) := by
            simp only [POST, hl]
          rw [h400]
          exact Or.inr (Or.inl rfl)
        | some lm =>
          by_cases hrole : lm.role = "user"
          · rw [POST_valid_eq mkEngine hl hrole]
            rcases postValidated_fst mkEngine ms lm with ⟨r, hr⟩ | ⟨e, he⟩
            · exact Or.inl ⟨r, hr⟩
            · exact Or.inr (Or.inr ⟨e, he⟩)
          · have h400 : POST mkEngine (Body.parsed (some ms)) =
                (HttpResponse.jsonError 400 (some validationError), []) := by
              simp only [POST, hl]
              rw [if_neg hrole]
            rw [h400]
            exact Or.inr (Or.inl rfl)
  · cases body with
    | malformed e => exact Or.inr (Or.inr ⟨e, rfl⟩)
    | parsed messages =>
      cases messages with
      | none => exact Or.inr (Or.inl rfl)
      | some ms =>
        cases hl : ms.getLast? with
        | none =>
          have h400 : POST_part001 mkEngineRaw (Body.parsed (some ms)) =
              (HttpResponse.jsonError 400 (some validationError), []) := by
            simp only [POST_part001, hl]
          rw [h400]
          exact Or.inr (Or.inl rfl)
        | some lm =>
          by_cases hrole : lm.role = "user"
          · rw [POST_part001_valid_eq mkEngineRaw hl hrole]
            rcases postValidated001_fst mkEngineRaw ms lm with ⟨r, hr⟩ | ⟨e, he⟩
            · exact Or.inl ⟨r, hr⟩
            · exact Or.inr (Or.inr ⟨e, he⟩)
          · have h400 : POST_part001 mkEngineRaw (Body.parsed (some ms)) =
                (HttpResponse.jsonError 400 (some validationError), []) := by
              simp only [POST_part001, hl]
              rw [if_neg hrole]
            rw [h400]
            exact Or.inr (Or.inl rfl)

/-- A singleton user conversation for the raw variant counterexample. -/
def c8msgs : List IncomingMessage := [⟨"user", JsVal.jstr "hola"⟩]

/-- C8 counterexample: in the part_001 variant a failure without a message
property yields a 500 response whose error field is absent, not the generic
fallback string. -/
theorem part001_missing_fallback_counterexample :
    POST_part001 (Except.error ⟨none⟩ : Except JsError (RawCallArgs → Except JsError Unit))
        (Body.parsed (some c8msgs)) =
      (HttpResponse.jsonError 500 none, []) ∧
    (some "Internal Server Error" ≠ (none : Option String)) :=
  ⟨rfl, by decide⟩
